import Mathlib

set_option autoImplicit false

/-!
Shallow embedding of the fastrank core (dense dataset layer, evaluator engine,
relevance-judgment store) and proofs about it.

Modelling conventions: machine floats (`f32`, `f64`, `NotNan<_>`) are carried as `ℚ`
with widening conversions modelled as the exact mathematical injection; `i32`/`i64`
buffers are carried as `Int` lists; `HashMap` values are association lists; fallible
operations return `Option`, and a Rust panic is an explicit result constructor (or a
`none`) rather than an error value.
-/

namespace Fastrank

/-- Association-list lookup: the value of the first binding with the given key
(models `HashMap` lookup; construction keeps keys unique). -/
def alookup {α β : Type} [DecidableEq α] : List (α × β) → α → Option β
  | [], _ => none
  | (k, v) :: rest, q => if k = q then some v else alookup rest q

theorem alookup_append_some {α β : Type} [DecidableEq α] (m l : List (α × β)) (q : α)
    (v : β) (h : alookup m q = some v) : alookup (m ++ l) q = some v := by
  induction m with
  | nil => simp [alookup] at h
  | cons kv rest ih =>
    obtain ⟨k, w⟩ := kv
    by_cases hk : k = q
    · simp only [alookup, if_pos hk] at h ⊢
      exact h
    · simp only [alookup, if_neg hk] at h ⊢
      exact ih h

theorem alookup_append_none {α β : Type} [DecidableEq α] (m l : List (α × β)) (q : α)
    (h : alookup m q = none) : alookup (m ++ l) q = alookup l q := by
  induction m with
  | nil => simp [alookup]
  | cons kv rest ih =>
    obtain ⟨k, w⟩ := kv
    by_cases hk : k = q
    · simp only [alookup, if_pos hk] at h
      cases h
    · simp only [alookup, if_neg hk] at h ⊢
      exact ih h

/-- Embeds `TypedArrayRef` (dense_dataset.rs): a read-only view over one of four
numeric element widths. -/
inductive TypedArrayRef where
  | denseI32 (arr : List Int)
  | denseI64 (arr : List Int)
  | denseF32 (arr : List ℚ)
  | denseF64 (arr : List ℚ)
  deriving DecidableEq

namespace TypedArrayRef

/-- Embeds `TypedArrayRef::len`. -/
def len : TypedArrayRef → ℕ
  | denseI32 arr => arr.length
  | denseI64 arr => arr.length
  | denseF32 arr => arr.length
  | denseF64 arr => arr.length

/-- Embeds `TypedArrayRef::get_i64`: succeeds for the two integer widths (int32 is
widened), absent for float-backed arrays; `none` also models the out-of-bounds read. -/
def get_i64 : TypedArrayRef → ℕ → Option Int
  | denseI32 arr, index => arr[index]?
  | denseI64 arr, index => arr[index]?
  | denseF32 _, _ => none
  | denseF64 _, _ => none

/-- Embeds `TypedArrayRef::get_f64`: succeeds for all four backing widths via numeric
widening, modelled exactly over `ℚ`. -/
def get_f64 : TypedArrayRef → ℕ → Option ℚ
  | denseI32 arr, index => arr[index]?.map (fun x : Int => (x : ℚ))
  | denseI64 arr, index => arr[index]?.map (fun x : Int => (x : ℚ))
  | denseF32 arr, index => arr[index]?
  | denseF64 arr, index => arr[index]?

/-- The whole buffer widened to `ℚ`; used to state row-major layout facts. -/
def toQList : TypedArrayRef → List ℚ
  | denseI32 arr => arr.map (fun x : Int => (x : ℚ))
  | denseI64 arr => arr.map (fun x : Int => (x : ℚ))
  | denseF32 arr => arr
  | denseF64 arr => arr

theorem get_f64_eq_toQList_get (t : TypedArrayRef) (index : ℕ) :
    t.get_f64 index = t.toQList[index]? := by
  cases t <;> simp only [get_f64, toQList, List.getElem?_map]

theorem length_toQList (t : TypedArrayRef) : t.toQList.length = t.len := by
  cases t <;> simp only [toQList, len, List.length_map]

end TypedArrayRef

/-- Embeds `DenseDataset` (dense_dataset.rs); `HashMap<i64, String>` is an
association list with unique keys. -/
structure DenseDataset where
  num_features : ℕ
  num_instances : ℕ
  xs : TypedArrayRef
  ys : TypedArrayRef
  qid_strings : List (Int × String)
  qids : TypedArrayRef
  feature_names : List (ℕ × String)
  deriving DecidableEq

/-- One `entry(qid).or_insert_with(..)` step of the qid-string derivation: insert the
binding only when the key is absent (first-seen-wins). -/
def insertIfAbsent (m : List (Int × String)) (k : Int) (v : String) : List (Int × String) :=
  match alookup m k with
  | some _ => m
  | none => m ++ [(k, v)]

/-- The qid-string derivation loop of `DenseDataset::try_new`: for each instance index,
`qids.get_i64(id).unwrap()` (the `none` result models the `unwrap` panic), then
decimal-stringify each numeric id the first time it is seen. -/
def computeQidStrings (qids : TypedArrayRef) :
    List ℕ → List (Int × String) → Option (List (Int × String))
  | [], acc => some acc
  | id :: rest, acc =>
    match qids.get_i64 id with
    | none => none
    | some q => computeQidStrings qids rest (insertIfAbsent acc q (toString q))

/-- Outcome of `DenseDataset::try_new`: a constructed dataset, an `Err`, or a panic
(the `unwrap` inside the qid-string derivation). -/
inductive TryNewResult where
  | ok (d : DenseDataset)
  | error (msg : String)
  | panicked
  deriving DecidableEq

/-- The constructed dataset, when construction succeeded. -/
def TryNewResult.getOk : TryNewResult → Option DenseDataset
  | .ok d => some d
  | .error _ => none
  | .panicked => none

/-- Whether construction returned an `Err`. -/
def TryNewResult.isErr : TryNewResult → Bool
  | .ok _ => false
  | .error _ => true
  | .panicked => false

/-- Embeds `DenseDataset::try_new` (dense_dataset.rs): the three length checks, then
the qid-string map (explicit when supplied, otherwise derived). -/
def DenseDataset.try_new (num_instances num_features : ℕ)
    (xs ys qids : TypedArrayRef) (qid_strs : Option (List (Int × String))) : TryNewResult :=
  if ys.len ≠ num_instances then .error "Bad y-length"
  else if qids.len ≠ num_instances then .error "Bad qids-length"
  else if xs.len ≠ num_instances * num_features then .error "Bad xs-length"
  else
    match qid_strs with
    | some from_py => .ok ⟨num_features, num_instances, xs, ys, from_py, qids, []⟩
    | none =>
      match computeQidStrings qids (List.range num_instances) [] with
      | none => .panicked
      | some computed => .ok ⟨num_features, num_instances, xs, ys, computed, qids, []⟩

/-- Embeds `DenseDataset::query_id`; the `none` result models the two possible panics
(`unwrap` of `get_i64`, and `HashMap` indexing on a missing key). -/
def DenseDataset.query_id (dd : DenseDataset) (id : ℕ) : Option String :=
  match dd.qids.get_i64 id with
  | none => none
  | some qid_no => alookup dd.qid_strings qid_no

/-- Embeds `DenseDataset::get_feature_value`: the widened read at row-major offset
`num_features * instance + fid`. -/
def DenseDataset.get_feature_value (dd : DenseDataset) (i : ℕ) (fid : ℕ) : Option ℚ :=
  dd.xs.get_f64 (dd.num_features * i + fid)

/-- C1 (amended): on a dataset whose feature buffer satisfies the construction length
invariant, `get_feature_value i f` is the widened value of the feature array at
row-major offset `num_features * i + f`; it is present whenever `i < num_instances`
and `f < num_features`, and it is absent exactly when that offset falls outside the
feature array — so an out-of-range feature index alone does not force an absent
result (it can alias into a later row). -/
theorem DenseDataset.get_feature_value_spec (dd : DenseDataset)
    (hlen : dd.xs.len = dd.num_instances * dd.num_features) (i f : ℕ) :
    dd.get_feature_value i f = dd.xs.toQList[dd.num_features * i + f]? ∧
    (i < dd.num_instances → f < dd.num_features →
      (dd.get_feature_value i f).isSome = true) ∧
    (dd.get_feature_value i f = none ↔
      dd.num_instances * dd.num_features ≤ dd.num_features * i + f) := by
  have hval : dd.get_feature_value i f = dd.xs.toQList[dd.num_features * i + f]? :=
    dd.xs.get_f64_eq_toQList_get _
  have hlen2 : dd.xs.toQList.length = dd.num_instances * dd.num_features := by
    rw [dd.xs.length_toQList, hlen]
  refine ⟨hval, ?_, ?_⟩
  · intro hi hf
    have hofs : dd.num_features * i + f < dd.num_instances * dd.num_features := by
      have h1 : dd.num_features * i + f < dd.num_features * (i + 1) := by
        have : dd.num_features * (i + 1) = dd.num_features * i + dd.num_features := by ring
        omega
      have h2 : dd.num_features * (i + 1) ≤ dd.num_features * dd.num_instances :=
        Nat.mul_le_mul_left _ (by omega)
      have h3 : dd.num_features * dd.num_instances = dd.num_instances * dd.num_features :=
        Nat.mul_comm _ _
      omega
    rw [hval]
    simp [List.getElem?_eq_getElem (by omega : dd.num_features * i + f < dd.xs.toQList.length)]
  · rw [hval, List.getElem?_eq_none_iff, hlen2]

/-- C1 counterexample: a validly constructed 2-instance, 2-feature dataset where
instance 0 and feature index 2 (out of declared feature range) still yields a present
value — the element of the next row — instead of the absent result the claim
requires for every `f ≥ num_features`. -/
theorem get_feature_value_out_of_range_counterexample :
    ((DenseDataset.try_new 2 2 (.denseI32 [1, 2, 3, 4]) (.denseF32 [0, 0])
        (.denseI32 [7, 7]) none).getOk.map
      (fun dd => dd.get_feature_value 0 2)) = some (some 3) := by decide

/-- C8: violating any of the three length invariants (labels, qids, features) makes
`try_new` return an `Err`: no dataset value is produced. -/
theorem DenseDataset.try_new_shape_mismatch (n d : ℕ) (xs ys qids : TypedArrayRef)
    (qid_strs : Option (List (Int × String)))
    (h : ys.len ≠ n ∨ qids.len ≠ n ∨ xs.len ≠ n * d) :
    (DenseDataset.try_new n d xs ys qids qid_strs).isErr = true := by
  by_cases h1 : ys.len = n
  · by_cases h2 : qids.len = n
    · have h3 : xs.len ≠ n * d := by tauto
      simp [DenseDataset.try_new, h1, h2, h3, TryNewResult.isErr]
    · simp [DenseDataset.try_new, h1, h2, TryNewResult.isErr]
  · simp [DenseDataset.try_new, h1, TryNewResult.isErr]

/-- C8 witness: a label buffer one element short of `num_instances = 2` fails the
whole construction. -/
theorem try_new_shape_mismatch_witness :
    (DenseDataset.try_new 2 1 (.denseF64 [1, 2]) (.denseF64 [0]) (.denseI32 [3, 3])
      none).isErr = true :=
  DenseDataset.try_new_shape_mismatch 2 1 _ _ _ none (Or.inl (by decide))

/-- C9: with a float-backed query-id array, a positive instance count, and no explicit
qid-string map, `try_new` panics (the `unwrap` of the absent `get_i64` result) instead
of returning an error, even though all three length invariants hold. -/
theorem DenseDataset.try_new_float_qids_panics (n d : ℕ) (xs ys qids : TypedArrayRef)
    (hn : 0 < n) (hys : ys.len = n) (hqids : qids.len = n) (hxs : xs.len = n * d)
    (hfloat : (∃ arr, qids = .denseF32 arr) ∨ (∃ arr, qids = .denseF64 arr)) :
    DenseDataset.try_new n d xs ys qids none = .panicked := by
  obtain ⟨m, rfl⟩ : ∃ m, n = m + 1 := ⟨n - 1, by omega⟩
  have hget : qids.get_i64 0 = none := by
    rcases hfloat with ⟨arr, rfl⟩ | ⟨arr, rfl⟩ <;> rfl
  simp [DenseDataset.try_new, hys, hqids, hxs, List.range_succ_eq_map,
    computeQidStrings, hget]

/-- C9 witness: one instance, float64-backed qids, no explicit map, valid lengths. -/
theorem try_new_float_qids_panics_witness :
    DenseDataset.try_new 1 1 (.denseF64 [2]) (.denseF64 [0]) (.denseF64 [9]) none
      = .panicked :=
  DenseDataset.try_new_float_qids_panics 1 1 _ _ _ (by decide) (by decide) (by decide)
    (by decide) (Or.inr ⟨[9], rfl⟩)

/-- C1 witness: in-bounds read on a concrete valid 2×2 dataset is present. -/
theorem get_feature_value_spec_witness :
    ((DenseDataset.mk 2 2 (.denseI32 [1, 2, 3, 4]) (.denseF32 [0, 0]) [(7, "7")]
      (.denseI32 [7, 7]) []).get_feature_value 1 1).isSome = true :=
  (DenseDataset.get_feature_value_spec
    (DenseDataset.mk 2 2 (.denseI32 [1, 2, 3, 4]) (.denseF32 [0, 0]) [(7, "7")]
      (.denseI32 [7, 7]) []) (by decide) 1 1).2.1 (by decide) (by decide)

theorem alookup_insertIfAbsent_preserve (m : List (Int × String)) (k0 : Int) (v0 : String)
    (k : Int) (v : String) (h : alookup m k = some v) :
    alookup (insertIfAbsent m k0 v0) k = some v := by
  cases hk : alookup m k0 with
  | none =>
    simp only [insertIfAbsent, hk]
    exact alookup_append_some _ _ _ _ h
  | some w => simp only [insertIfAbsent, hk]; exact h

theorem alookup_insertIfAbsent_self (m : List (Int × String)) (k0 : Int) (v0 : String) :
    ∃ v, alookup (insertIfAbsent m k0 v0) k0 = some v := by
  cases hk : alookup m k0 with
  | none =>
    refine ⟨v0, ?_⟩
    simp only [insertIfAbsent, hk]
    rw [alookup_append_none _ _ _ hk]
    simp [alookup]
  | some w => exact ⟨w, by simp [insertIfAbsent, hk]⟩

theorem alookup_insertIfAbsent_inv (m : List (Int × String)) (k0 : Int)
    (hm : ∀ k v, alookup m k = some v → v = toString k) (k : Int) (v : String)
    (h : alookup (insertIfAbsent m k0 (toString k0)) k = some v) : v = toString k := by
  cases hk : alookup m k0 with
  | none =>
    simp only [insertIfAbsent, hk] at h
    cases hmk : alookup m k with
    | none =>
      rw [alookup_append_none _ _ _ hmk] at h
      by_cases hkk : k0 = k
      · subst hkk
        simp [alookup] at h
        simp [h]
      · simp only [alookup, if_neg hkk] at h
        cases h
    | some w =>
      rw [alookup_append_some _ _ _ _ hmk] at h
      cases h
      exact hm _ _ hmk
  | some w =>
    simp only [insertIfAbsent, hk] at h
    exact hm _ _ h

theorem computeQidStrings_mono (qids : TypedArrayRef) (ids : List ℕ) :
    ∀ acc m, computeQidStrings qids ids acc = some m →
      ∀ k v, alookup acc k = some v → alookup m k = some v := by
  induction ids with
  | nil =>
    intro acc m h k v hk
    simp only [computeQidStrings, Option.some_inj] at h
    rw [← h]; exact hk
  | cons id rest ih =>
    intro acc m h k v hk
    rw [computeQidStrings] at h
    cases hg : qids.get_i64 id with
    | none => rw [hg] at h; cases h
    | some q =>
      rw [hg] at h
      exact ih _ _ h _ _ (alookup_insertIfAbsent_preserve _ _ _ _ _ hk)

theorem computeQidStrings_inv (qids : TypedArrayRef) (ids : List ℕ) :
    ∀ acc m, computeQidStrings qids ids acc = some m →
      (∀ k v, alookup acc k = some v → v = toString k) →
      ∀ k v, alookup m k = some v → v = toString k := by
  induction ids with
  | nil =>
    intro acc m h hacc k v hv
    simp only [computeQidStrings, Option.some_inj] at h
    rw [← h] at hv; exact hacc _ _ hv
  | cons id rest ih =>
    intro acc m h hacc k v hv
    rw [computeQidStrings] at h
    cases hg : qids.get_i64 id with
    | none => rw [hg] at h; cases h
    | some q =>
      rw [hg] at h
      exact ih _ _ h (fun k2 v2 h2 => alookup_insertIfAbsent_inv acc q hacc k2 v2 h2) k v hv

theorem computeQidStrings_covers (qids : TypedArrayRef) (ids : List ℕ) :
    ∀ acc m, computeQidStrings qids ids acc = some m →
      ∀ id ∈ ids, ∃ q, qids.get_i64 id = some q ∧ ∃ s, alookup m q = some s := by
  induction ids with
  | nil => intro acc m h id hid; cases hid
  | cons id0 rest ih =>
    intro acc m h id hid
    rw [computeQidStrings] at h
    cases hg : qids.get_i64 id0 with
    | none => rw [hg] at h; cases h
    | some q0 =>
      rw [hg] at h
      rcases List.mem_cons.mp hid with rfl | hmem
      · refine ⟨q0, hg, ?_⟩
        obtain ⟨v, hv⟩ := alookup_insertIfAbsent_self acc q0 (toString q0)
        exact ⟨v, computeQidStrings_mono qids rest _ _ h _ _ hv⟩
      · exact ih _ _ h id hmem

/-- C3 (amended): for every dataset successfully constructed by `try_new` WITHOUT an
explicit qid-string map, `query_id` succeeds on every instance index below
`num_instances` and returns the canonical decimal string of the numeric query-id.
(With an explicit map the construction does not validate coverage and `query_id` can
panic, see the counterexample.) -/
theorem DenseDataset.query_id_success_derived (n d : ℕ) (xs ys qids : TypedArrayRef)
    (dd : DenseDataset)
    (hok : DenseDataset.try_new n d xs ys qids none = .ok dd)
    (i : ℕ) (hi : i < n) :
    ∃ q, qids.get_i64 i = some q ∧ dd.query_id i = some (toString q) := by
  unfold DenseDataset.try_new at hok
  by_cases h1 : ys.len = n
  case neg => simp [h1] at hok
  by_cases h2 : qids.len = n
  case neg => simp [h1, h2] at hok
  by_cases h3 : xs.len = n * d
  case neg => simp [h1, h2, h3] at hok
  simp only [h1, h2, h3, ne_eq, not_true_eq_false, if_false, ite_false] at hok
  cases hcq : computeQidStrings qids (List.range n) [] with
  | none => rw [hcq] at hok; cases hok
  | some computed =>
    rw [hcq] at hok
    cases hok
    obtain ⟨q, hq, s, hs⟩ := computeQidStrings_covers qids (List.range n) [] computed hcq
      i (List.mem_range.mpr hi)
    have hcanon : s = toString q :=
      computeQidStrings_inv qids (List.range n) [] computed hcq
        (fun k v hv => by simp [alookup] at hv) q s hs
    refine ⟨q, hq, ?_⟩
    rw [DenseDataset.query_id]
    simp only [hq, hs, hcanon]

/-- C3 counterexample: with an explicit qid-string map that does not cover the numeric
qid 5, construction succeeds but `query_id` hits the missing-key panic (modelled as
`none`), refuting the claim for the explicit-map construction path. -/
theorem query_id_explicit_map_counterexample :
    ((DenseDataset.try_new 1 1 (.denseF64 [1]) (.denseF64 [0]) (.denseI64 [5])
        (some [])).getOk.map (fun dd => dd.query_id 0)) = some none := by decide

/-- C3 witness: a concrete derived-map dataset resolves instance 0 to the canonical
string of its numeric query-id. -/
theorem query_id_success_derived_witness :
    ∃ q, (TypedArrayRef.denseI64 [5]).get_i64 0 = some q ∧
      (DenseDataset.mk 1 1 (.denseI64 [2]) (.denseI64 [0]) [(5, "5")]
        (.denseI64 [5]) []).query_id 0 = some (toString q) :=
  DenseDataset.query_id_success_derived 1 1 (.denseI64 [2]) (.denseI64 [0])
    (.denseI64 [5]) _ (by decide) 0 (by decide)

/-! Evaluator engine (evaluators.rs): ranked instances, ordering, metrics. -/

/-- Three-way comparison on `ℚ`: the order `NotNan<f64>::cmp` (and `NotNan<f32>::cmp`)
realises on non-NaN values. -/
def cmpQ (a b : ℚ) : Ordering :=
  if a < b then .lt else if a = b then .eq else .gt

/-- Three-way comparison on `ℕ`, for `u32::cmp` on identifiers. -/
def cmpN (a b : ℕ) : Ordering :=
  if a < b then .lt else if a = b then .eq else .gt

/-- Embeds `RankedInstance` (evaluators.rs); scores and gains are non-NaN by the
`NotNan` wrapper and carried as `ℚ`. -/
structure RankedInstance where
  score : ℚ
  gain : ℚ
  identifier : ℕ
  deriving DecidableEq

/-- Embeds `Ord for RankedInstance::cmp`: score descending (`other.score.cmp(&self.score)`),
then gain ascending, then identifier ascending. -/
def RankedInstance.cmp (a b : RankedInstance) : Ordering :=
  let c1 := cmpQ b.score a.score
  if c1 ≠ .eq then c1
  else
    let c2 := cmpQ a.gain b.gain
    if c2 ≠ .eq then c2
    else cmpN a.identifier b.identifier

/-- Embeds `RankedInstance::is_relevant`: gain strictly positive. -/
def RankedInstance.is_relevant (ri : RankedInstance) : Bool :=
  decide (0 < ri.gain)

/-- The strict lexicographic order that `RankedInstance::cmp` decides: higher score
first, then lower gain, then lower identifier. -/
def RankedInstance.lexLT (a b : RankedInstance) : Prop :=
  b.score < a.score ∨
    (b.score = a.score ∧
      (a.gain < b.gain ∨ (a.gain = b.gain ∧ a.identifier < b.identifier)))

theorem cmpQ_of_lt {a b : ℚ} (h : a < b) : cmpQ a b = .lt := by
  simp [cmpQ, h]

theorem cmpQ_of_eq {a b : ℚ} (h : a = b) : cmpQ a b = .eq := by
  simp [cmpQ, h]

theorem cmpQ_of_gt {a b : ℚ} (h : b < a) : cmpQ a b = .gt := by
  have h1 : ¬a < b := not_lt_of_gt h
  have h2 : a ≠ b := ne_of_gt h
  simp [cmpQ, h1, h2]

theorem cmpN_of_lt {a b : ℕ} (h : a < b) : cmpN a b = .lt := by
  simp [cmpN, h]

theorem cmpN_of_eq {a b : ℕ} (h : a = b) : cmpN a b = .eq := by
  simp [cmpN, h]

theorem cmpN_of_gt {a b : ℕ} (h : b < a) : cmpN a b = .gt := by
  have h1 : ¬a < b := by omega
  have h2 : a ≠ b := by omega
  simp [cmpN, h1, h2]

/-- Trichotomy for `RankedInstance::cmp` against `lexLT`. -/
theorem RankedInstance.cmp_cases (a b : RankedInstance) :
    (a.lexLT b ∧ a.cmp b = .lt) ∨ (a = b ∧ a.cmp b = .eq) ∨
      (b.lexLT a ∧ a.cmp b = .gt) := by
  obtain ⟨s1, g1, i1⟩ := a
  obtain ⟨s2, g2, i2⟩ := b
  rcases lt_trichotomy s2 s1 with hs | hs | hs
  · exact Or.inl ⟨Or.inl hs, by simp [RankedInstance.cmp, cmpQ_of_lt hs]⟩
  · rcases lt_trichotomy g1 g2 with hg | hg | hg
    · exact Or.inl ⟨Or.inr ⟨hs, Or.inl hg⟩,
        by simp [RankedInstance.cmp, cmpQ_of_eq hs, cmpQ_of_lt hg]⟩
    · rcases lt_trichotomy i1 i2 with hi | hi | hi
      · exact Or.inl ⟨Or.inr ⟨hs, Or.inr ⟨hg, hi⟩⟩,
          by simp [RankedInstance.cmp, cmpQ_of_eq hs, cmpQ_of_eq hg, cmpN_of_lt hi]⟩
      · exact Or.inr (Or.inl ⟨by rw [hs, hg, hi],
          by simp [RankedInstance.cmp, cmpQ_of_eq hs, cmpQ_of_eq hg, cmpN_of_eq hi]⟩)
      · exact Or.inr (Or.inr ⟨Or.inr ⟨hs.symm, Or.inr ⟨hg.symm, hi⟩⟩,
          by simp [RankedInstance.cmp, cmpQ_of_eq hs, cmpQ_of_eq hg, cmpN_of_gt hi]⟩)
    · exact Or.inr (Or.inr ⟨Or.inr ⟨hs.symm, Or.inl hg⟩,
        by simp [RankedInstance.cmp, cmpQ_of_eq hs, cmpQ_of_gt hg]⟩)
  · exact Or.inr (Or.inr ⟨Or.inl hs,
      by simp [RankedInstance.cmp, cmpQ_of_gt hs]⟩)

theorem RankedInstance.lexLT_irrefl (a : RankedInstance) : ¬a.lexLT a := by
  obtain ⟨s, g, i⟩ := a
  rintro (h | ⟨-, h | ⟨-, h⟩⟩)
  · exact lt_irrefl _ h
  · exact lt_irrefl _ h
  · exact lt_irrefl _ h

theorem RankedInstance.lexLT_asymm {a b : RankedInstance}
    (h1 : a.lexLT b) (h2 : b.lexLT a) : False := by
  obtain ⟨s1, g1, i1⟩ := a
  obtain ⟨s2, g2, i2⟩ := b
  rcases h1 with h1 | ⟨hs1, h1 | ⟨hg1, h1⟩⟩ <;>
    rcases h2 with h2 | ⟨hs2, h2 | ⟨hg2, h2⟩⟩ <;> linarith

theorem RankedInstance.lexLT_trans {a b c : RankedInstance}
    (h1 : a.lexLT b) (h2 : b.lexLT c) : a.lexLT c := by
  obtain ⟨s1, g1, i1⟩ := a
  obtain ⟨s2, g2, i2⟩ := b
  obtain ⟨s3, g3, i3⟩ := c
  simp only [RankedInstance.lexLT] at h1 h2 ⊢
  rcases h1 with h1 | ⟨hs1, h1⟩ <;> rcases h2 with h2 | ⟨hs2, h2⟩
  · exact Or.inl (lt_trans h2 h1)
  · exact Or.inl (by rw [hs2]; exact h1)
  · exact Or.inl (by rw [← hs1]; exact h2)
  · refine Or.inr ⟨hs2.trans hs1, ?_⟩
    rcases h1 with h1 | ⟨hg1, h1⟩ <;> rcases h2 with h2 | ⟨hg2, h2⟩
    · exact Or.inl (lt_trans h1 h2)
    · exact Or.inl (by rw [← hg2]; exact h1)
    · exact Or.inl (by rw [hg1]; exact h2)
    · exact Or.inr ⟨hg1.trans hg2, lt_trans h1 h2⟩

/-- Stable insertion using `RankedInstance::cmp` (the ascending sort Rust performs
with the derived order). -/
def insertRanked (x : RankedInstance) : List RankedInstance → List RankedInstance
  | [] => [x]
  | y :: ys => if x.cmp y = .gt then y :: insertRanked x ys else x :: y :: ys

/-- Insertion sort by `RankedInstance::cmp`. -/
def sortRanked (l : List RankedInstance) : List RankedInstance :=
  l.foldr insertRanked []

/-- C4: the `RankedInstance` comparison is a total order — reflexive on equality,
separating (eq forces structural equality), with `lt`/`gt` mirror images, a
transitive and total not-greater relation — with primary key score descending, then
gain ascending, then identifier ascending; and the three instances
(3.0, 1.0, 10), (3.0, 0.0, 11), (1.0, 0.0, 12) sort to identifier order [11, 10, 12]. -/
theorem ranked_instance_cmp_total_order (a b c : RankedInstance) :
    (a.cmp a = .eq) ∧
    (a.cmp b = .eq → a = b) ∧
    (a.cmp b = .lt ↔ a.lexLT b) ∧
    (a.cmp b = .lt ↔ b.cmp a = .gt) ∧
    (a.cmp b ≠ .gt → b.cmp c ≠ .gt → a.cmp c ≠ .gt) ∧
    (a.cmp b ≠ .gt ∨ b.cmp a ≠ .gt) ∧
    (sortRanked [⟨3, 1, 10⟩, ⟨3, 0, 11⟩, ⟨1, 0, 12⟩] =
        [⟨3, 0, 11⟩, ⟨3, 1, 10⟩, ⟨1, 0, 12⟩] ∧
      (sortRanked [⟨3, 1, 10⟩, ⟨3, 0, 11⟩, ⟨1, 0, 12⟩]).map RankedInstance.identifier =
        [11, 10, 12]) := by
  have hlt : ∀ x y : RankedInstance, x.cmp y = .lt ↔ x.lexLT y := by
    intro x y
    constructor
    · intro h
      rcases x.cmp_cases y with ⟨h1, -⟩ | ⟨-, h2⟩ | ⟨-, h3⟩
      · exact h1
      · rw [h] at h2; cases h2
      · rw [h] at h3; cases h3
    · intro h
      rcases x.cmp_cases y with ⟨-, h1⟩ | ⟨rfl, -⟩ | ⟨h3, -⟩
      · exact h1
      · exact absurd h x.lexLT_irrefl
      · exact (RankedInstance.lexLT_asymm h h3).elim
  have hgt : ∀ x y : RankedInstance, x.cmp y = .gt ↔ y.lexLT x := by
    intro x y
    constructor
    · intro h
      rcases x.cmp_cases y with ⟨-, h1⟩ | ⟨-, h2⟩ | ⟨h3, -⟩
      · rw [h] at h1; cases h1
      · rw [h] at h2; cases h2
      · exact h3
    · intro h
      rcases x.cmp_cases y with ⟨h1, -⟩ | ⟨rfl, -⟩ | ⟨-, h3⟩
      · exact (RankedInstance.lexLT_asymm h h1).elim
      · exact absurd h x.lexLT_irrefl
      · exact h3
  have heq : ∀ x y : RankedInstance, x.cmp y = .eq → x = y := by
    intro x y h
    rcases x.cmp_cases y with ⟨-, h1⟩ | ⟨h2, -⟩ | ⟨-, h3⟩
    · rw [h] at h1; cases h1
    · exact h2
    · rw [h] at h3; cases h3
  refine ⟨?_, heq a b, hlt a b, ?_, ?_, ?_, by decide⟩
  · rcases a.cmp_cases a with ⟨h1, -⟩ | ⟨-, h2⟩ | ⟨h3, -⟩
    · exact absurd h1 a.lexLT_irrefl
    · exact h2
    · exact absurd h3 a.lexLT_irrefl
  · rw [hlt a b, hgt b a]
  · intro hab hbc hac
    rw [hgt] at hac
    rcases a.cmp_cases b with ⟨h1, -⟩ | ⟨rfl, -⟩ | ⟨-, h3⟩
    · rcases RankedInstance.cmp_cases b c with ⟨h4, -⟩ | ⟨rfl, -⟩ | ⟨-, h6⟩
      · exact RankedInstance.lexLT_asymm (RankedInstance.lexLT_trans h1 h4) hac
      · exact RankedInstance.lexLT_asymm h1 hac
      · exact hbc h6
    · rcases RankedInstance.cmp_cases a c with ⟨h4, -⟩ | ⟨rfl, -⟩ | ⟨-, h6⟩
      · exact RankedInstance.lexLT_asymm h4 hac
      · exact a.lexLT_irrefl hac
      · exact hbc h6
    · exact hab h3
  · by_cases h : a.cmp b = .gt
    · right
      rw [hgt] at h
      intro h2
      rw [hgt] at h2
      exact RankedInstance.lexLT_asymm h h2
    · exact Or.inl h

/-- C4 witness: the separating direction at a concrete instance. -/
theorem ranked_instance_cmp_total_order_witness :
    (⟨2, 1, 4⟩ : RankedInstance) = ⟨2, 1, 4⟩ :=
  (ranked_instance_cmp_total_order ⟨2, 1, 4⟩ ⟨2, 1, 4⟩ ⟨2, 1, 4⟩).2.1 (by decide)

/-- First index (0-based) at which the predicate holds: models the
`iter().enumerate().filter(..).nth(0)` chain of `ReciprocalRank::score`. -/
def firstIdx (p : RankedInstance → Bool) : List RankedInstance → Option ℕ
  | [] => none
  | a :: l => if p a then some 0 else (firstIdx p l).map (· + 1)

/-- Embeds `ReciprocalRank::score` (Evaluator impl): 1/(1-based rank of the first
relevant instance), 0.0 when no instance is relevant. -/
def ReciprocalRank.score (ranked_list : List RankedInstance) : ℚ :=
  match firstIdx (fun ri => ri.is_relevant) ranked_list with
  | some i => 1 / ((i : ℚ) + 1)
  | none => 0

theorem firstIdx_eq_none (p : RankedInstance → Bool) (l : List RankedInstance)
    (h : ∀ ri ∈ l, p ri = false) : firstIdx p l = none := by
  induction l with
  | nil => rfl
  | cons a t ih =>
    have ha : p a = false := h a (List.mem_cons_self a t)
    have ht := ih (fun ri hri => h ri (List.mem_cons_of_mem a hri))
    simp [firstIdx, ha, ht]

theorem firstIdx_eq_some (p : RankedInstance → Bool) (l : List RankedInstance) :
    ∀ i ri, l[i]? = some ri → p ri = true →
      (∀ j rj, j < i → l[j]? = some rj → p rj = false) → firstIdx p l = some i := by
  induction l with
  | nil => intro i ri h _ _; simp at h
  | cons a t ih =>
    intro i ri h hp hbefore
    cases i with
    | zero =>
      simp only [List.getElem?_cons_zero, Option.some_inj] at h
      subst h
      simp [firstIdx, hp]
    | succ n =>
      have ha : p a = false := hbefore 0 a (by omega) (by simp)
      have ht := ih n ri (by simpa using h) hp
        (fun j rj hj hget => hbefore (j + 1) rj (by omega) (by simpa using hget))
      simp [firstIdx, ha, ht]

/-- C6: `ReciprocalRank::score` returns 1/r where r is the 1-based rank of the first
element with positive gain, and 0.0 when no element has positive gain. -/
theorem reciprocal_rank_spec (l : List RankedInstance) :
    ((∀ ri ∈ l, ri.is_relevant = false) → ReciprocalRank.score l = 0) ∧
    (∀ (i : ℕ) (ri : RankedInstance), l[i]? = some ri → ri.is_relevant = true →
      (∀ (j : ℕ) (rj : RankedInstance), j < i → l[j]? = some rj →
        rj.is_relevant = false) →
      ReciprocalRank.score l = 1 / ((i : ℚ) + 1)) := by
  constructor
  · intro h
    rw [ReciprocalRank.score, firstIdx_eq_none _ _ h]
  · intro i ri hget hrel hbefore
    rw [ReciprocalRank.score, firstIdx_eq_some _ _ i ri hget hrel hbefore]

/-- C6 witness: relevance pattern [not relevant, not relevant, relevant] scores 1/3. -/
theorem reciprocal_rank_spec_witness :
    ReciprocalRank.score [⟨9, 0, 1⟩, ⟨8, 0, 2⟩, ⟨7, 2, 3⟩] = 1 / ((2 : ℚ) + 1) :=
  (reciprocal_rank_spec [⟨9, 0, 1⟩, ⟨8, 0, 2⟩, ⟨7, 2, 3⟩]).2 2 ⟨7, 2, 3⟩
    (by decide) (by decide)
    (by
      intro j rj hj hget
      interval_cases j <;>
        simp only [List.getElem?_cons_zero, List.getElem?_cons_succ,
          Option.some_inj] at hget <;>
          rw [← hget] <;> decide)

/-! Judgment store (qrel.rs) and the evaluator-facing dataset view. -/

/-- Embeds `QueryJudgments` (qrel.rs): document-id → non-NaN relevance gain
(the `HashMap` as an association list with unique keys). -/
structure QueryJudgments where
  docid_to_rel : List (String × ℚ)
  deriving DecidableEq

/-- Embeds `QueryJudgments::num_relevant`: count of judged documents with positive
gain. -/
def QueryJudgments.num_relevant (qj : QueryJudgments) : ℕ :=
  (qj.docid_to_rel.filter fun p => decide (0 < p.2)).length

/-- Modelled from the spec: `QueryJudgments::gain_vector` is called by `NDCG::new`
but is not among the embedded source files; per the spec it is the full judged-gain
vector for the query. -/
def QueryJudgments.gain_vector (qj : QueryJudgments) : List ℚ :=
  qj.docid_to_rel.map fun p => p.2

/-- Embeds `QuerySetJudgments` (qrel.rs): query-id → per-query judgments. -/
structure QuerySetJudgments where
  query_to_judgments : List (String × QueryJudgments)
  deriving DecidableEq

/-- Embeds `QuerySetJudgments::get`. -/
def QuerySetJudgments.get (qsj : QuerySetJudgments) (qid : String) :
    Option QueryJudgments :=
  alookup qsj.query_to_judgments qid

/-- Modelled from the spec: the evaluator-facing dataset view (the `RankingDataset`
struct of `crate::dataset`, not among the embedded source files) as consumed by
`NDCG::new` and `AveragePrecision::new` — per-instance gains (`instances[i].gain`)
and the grouped-by-query instance-id lists (`data_by_query`).  The evaluators only
index instances at ids produced by the grouping, so the model reads a default gain 0
out of bounds instead of modelling that panic. -/
structure RankingDataset where
  instance_gains : List ℚ
  data_by_query : List (String × List ℕ)
  deriving DecidableEq

/-- Gain of instance `i` (`dataset.instances[i].gain`). -/
def gainAt (dataset : RankingDataset) (i : ℕ) : ℚ :=
  dataset.instance_gains.getD i 0

/-- The per-query `num_relevant` computed inside `AveragePrecision::new`: external
judgment relevant-count when judgments are supplied and contain the query, else the
count of positive-gain dataset rows for that query. -/
def apNumRelevant (dataset : RankingDataset) (judgments : Option QuerySetJudgments)
    (qid : String) (instance_ids : List ℕ) : ℕ :=
  match judgments.bind fun j => j.get qid with
  | some data => data.num_relevant
  | none => (instance_ids.filter fun index => decide (0 < gainAt dataset index)).length

/-- Embeds `AveragePrecision` (evaluators.rs): per-query relevant counts for mAP. -/
structure AveragePrecision where
  query_norms : List (String × ℕ)
  deriving DecidableEq

/-- The construction loop of `AveragePrecision::new` over `data_by_query`: cache the
per-query num_relevant, but only when it is positive. -/
def apNorms (dataset : RankingDataset) (judgments : Option QuerySetJudgments) :
    List (String × List ℕ) → List (String × ℕ)
  | [] => []
  | p :: rest =>
    if 0 < apNumRelevant dataset judgments p.1 p.2 then
      (p.1, apNumRelevant dataset judgments p.1 p.2) :: apNorms dataset judgments rest
    else apNorms dataset judgments rest

/-- Embeds `AveragePrecision::new`. -/
def AveragePrecision.new (dataset : RankingDataset)
    (judgments : Option QuerySetJudgments) : AveragePrecision :=
  ⟨apNorms dataset judgments dataset.data_by_query⟩

/-- The accumulation loop of `AveragePrecision::score`: walk the ranked list with a
1-based rank and a relevant-so-far counter, adding counter/rank at each relevant hit. -/
def apSum : List RankedInstance → ℕ → ℕ → ℚ
  | [], _, _ => 0
  | ri :: rest, rank, recall_points =>
    if ri.is_relevant then
      ((recall_points + 1 : ℕ) : ℚ) / (rank : ℚ) + apSum rest (rank + 1) (recall_points + 1)
    else apSum rest (rank + 1) recall_points

/-- Embeds `AveragePrecision::score` (Evaluator impl): cached norm, or the count of
relevant items of the ranked list when the query has no cached norm. -/
def AveragePrecision.score (ap : AveragePrecision) (qid : String)
    (ranked_list : List RankedInstance) : ℚ :=
  let num_relevant : ℕ :=
    match alookup ap.query_norms qid with
    | some n => n
    | none => (ranked_list.filter fun ri => ri.is_relevant).length
  if num_relevant = 0 then 0
  else apSum ranked_list 1 0 / (num_relevant : ℚ)

theorem alookup_apNorms_not_mem (dataset : RankingDataset)
    (judgments : Option QuerySetJudgments) (l : List (String × List ℕ)) (qid : String)
    (h : qid ∉ l.map Prod.fst) :
    alookup (apNorms dataset judgments l) qid = none := by
  induction l with
  | nil => rfl
  | cons p rest ih =>
    obtain ⟨q0, ids0⟩ := p
    have hq0 : q0 ≠ qid := fun hq => h (by simp [hq])
    have hrest : qid ∉ rest.map Prod.fst := fun hr => h (by simp [hr])
    rw [apNorms]
    by_cases hc : 0 < apNumRelevant dataset judgments (q0, ids0).1 (q0, ids0).2
    · rw [if_pos hc]
      simp only [alookup, if_neg hq0]
      exact ih hrest
    · rw [if_neg hc]
      exact ih hrest

theorem alookup_apNorms (dataset : RankingDataset)
    (judgments : Option QuerySetJudgments) (l : List (String × List ℕ)) :
    ∀ (qid : String) (ids : List ℕ), (l.map Prod.fst).Nodup → (qid, ids) ∈ l →
      alookup (apNorms dataset judgments l) qid =
      (if 0 < apNumRelevant dataset judgments qid ids
       then some (apNumRelevant dataset judgments qid ids) else none) := by
  induction l with
  | nil => intro qid ids _ hmem; cases hmem
  | cons p rest ih =>
    intro qid ids hnodup hmem
    obtain ⟨q0, ids0⟩ := p
    rw [apNorms]
    rcases List.mem_cons.mp hmem with heq | hmem2
    · have hq : qid = q0 := congrArg Prod.fst heq
      have hids : ids = ids0 := congrArg Prod.snd heq
      subst hq
      subst hids
      have hnotin : qid ∉ rest.map Prod.fst := (List.nodup_cons.mp hnodup).1
      by_cases hc : 0 < apNumRelevant dataset judgments qid ids
      · rw [if_pos hc, if_pos hc]
        simp [alookup]
      · rw [if_neg hc, if_neg hc]
        exact alookup_apNorms_not_mem dataset judgments rest qid hnotin
    · have hne : q0 ≠ qid := by
        intro hq
        subst hq
        exact (List.nodup_cons.mp hnodup).1
          (List.mem_map.mpr ⟨(q0, ids), hmem2, rfl⟩)
      have hnodup2 : (rest.map Prod.fst).Nodup := (List.nodup_cons.mp hnodup).2
      by_cases hc : 0 < apNumRelevant dataset judgments q0 ids0
      · rw [if_pos hc]
        simp only [alookup, if_neg hne]
        exact ih qid ids hnodup2 hmem2
      · rw [if_neg hc]
        exact ih qid ids hnodup2 hmem2

/-- C2 (amended): `AveragePrecision` computes each construction-time num_relevant as
the external judgment relevant-count when judgments are supplied for the query, else
the count of positive-gain dataset rows — but a zero num_relevant is NOT cached, and
at score time an uncached query recomputes num_relevant as the count of relevant
items in the ranked list itself.  The score is therefore 0.0 exactly when the
effective num_relevant is zero (not whenever the construction-time count is zero);
with a positive effective num_relevant it is the accumulated (relevant-so-far)/rank
sum over relevant hits divided by that num_relevant. -/
theorem average_precision_score_spec (dataset : RankingDataset)
    (judgments : Option QuerySetJudgments) (qid : String) (ids : List ℕ)
    (ranked : List RankedInstance)
    (hnodup : (dataset.data_by_query.map Prod.fst).Nodup)
    (hmem : (qid, ids) ∈ dataset.data_by_query) :
    AveragePrecision.score (AveragePrecision.new dataset judgments) qid ranked =
      (if 0 < apNumRelevant dataset judgments qid ids then
        apSum ranked 1 0 / ((apNumRelevant dataset judgments qid ids : ℕ) : ℚ)
       else if (ranked.filter fun ri => ri.is_relevant).length = 0 then 0
       else apSum ranked 1 0 /
         (((ranked.filter fun ri => ri.is_relevant).length : ℕ) : ℚ)) := by
  have hlook := alookup_apNorms dataset judgments dataset.data_by_query qid ids
    hnodup hmem
  by_cases hc : 0 < apNumRelevant dataset judgments qid ids
  · rw [if_pos hc] at hlook
    rw [if_pos hc]
    simp only [AveragePrecision.score, AveragePrecision.new, hlook]
    rw [if_neg (by omega)]
  · rw [if_neg hc] at hlook
    rw [if_neg hc]
    simp only [AveragePrecision.score, AveragePrecision.new, hlook]

/-- C2 counterexample: query q has zero positive-gain dataset rows and no judgments,
so its construction-time num_relevant is 0 — yet scoring a ranked list containing a
relevant instance returns 1, not 0.0, because a zero norm is never cached and the
score path recounts the ranked list. -/
theorem average_precision_zero_norm_counterexample :
    apNumRelevant ⟨[0], [("q", [0])]⟩ none "q" [0] = 0 ∧
    AveragePrecision.score (AveragePrecision.new ⟨[0], [("q", [0])]⟩ none) "q"
      [⟨1, 1, 0⟩] = 1 := by
  constructor
  · decide
  · norm_num [AveragePrecision.score, AveragePrecision.new, apNorms, apNumRelevant,
      QuerySetJudgments.get, alookup, gainAt, apSum, RankedInstance.is_relevant]

/-- C2 witness: a cached positive norm divides the accumulated precision sum. -/
theorem average_precision_score_spec_witness :
    AveragePrecision.score (AveragePrecision.new ⟨[2], [("q", [0])]⟩ none) "q"
      [⟨1, 2, 0⟩] =
      (if 0 < apNumRelevant ⟨[2], [("q", [0])]⟩ none "q" [0] then
        apSum [⟨1, 2, 0⟩] 1 0 / ((apNumRelevant ⟨[2], [("q", [0])]⟩ none "q" [0] : ℕ) : ℚ)
       else if (([⟨1, 2, 0⟩] : List RankedInstance).filter
          fun ri => ri.is_relevant).length = 0 then 0
       else apSum [⟨1, 2, 0⟩] 1 0 /
         (((([⟨1, 2, 0⟩] : List RankedInstance).filter
           fun ri => ri.is_relevant).length : ℕ) : ℚ)) :=
  average_precision_score_spec ⟨[2], [("q", [0])]⟩ none "q" [0] [⟨1, 2, 0⟩]
    (by decide) (by decide)

/-! NDCG (evaluators.rs). -/

/-- Embeds `compute_dcg` (evaluators.rs): sum of (2^gain − 1)/log2(i + 2) over the
enumerated gains, truncated at `depth`; real-valued because the discount is
transcendental. -/
noncomputable def compute_dcg (gains : List ℚ) (depth : ℕ) : ℝ :=
  ((gains.enum.take depth).map
    (fun p => ((2 : ℝ) ^ (p.2 : ℝ) - 1) / Real.logb 2 ((p.1 : ℝ) + 2))).sum

/-- Descending insertion step, modelling `sort_unstable_by(|lhs, rhs| rhs.cmp(lhs))`. -/
def insertDesc (x : ℚ) : List ℚ → List ℚ
  | [] => [x]
  | y :: ys => if x < y then y :: insertDesc x ys else x :: y :: ys

/-- Descending sort of a gain vector. -/
def sortDesc (l : List ℚ) : List ℚ := l.foldr insertDesc []

/-- Embeds `NDCG` (evaluators.rs): the depth and the cached per-query normalizer
(`none` = the query has no ideal gains and hence no normalizer). -/
structure NDCG where
  depth : ℕ
  ideal_gains : List (String × Option ℝ)

/-- The cached normalizer `NDCG::new` computes for one query: the full judged gain
vector when judgments contain the query, else the positive dataset gains for its
rows; sorted descending; `none` when the vector is empty. -/
noncomputable def ndcgNorm (dataset : RankingDataset)
    (judgments : Option QuerySetJudgments) (depth : ℕ) (qid : String)
    (instance_ids : List ℕ) : Option ℝ :=
  let all_gains : Option (List ℚ) :=
    (judgments.bind fun j => j.get qid).map fun data => data.gain_vector
  let ideal_gains : List ℚ :=
    sortDesc (all_gains.getD
      ((instance_ids.map fun index => gainAt dataset index).filter
        fun g => decide (0 < g)))
  if ideal_gains = [] then none else some (compute_dcg ideal_gains depth)

/-- Embeds `NDCG::new`: one cached normalizer per query of `data_by_query`. -/
noncomputable def NDCG.new (depth : ℕ) (dataset : RankingDataset)
    (judgments : Option QuerySetJudgments) : NDCG :=
  ⟨depth, dataset.data_by_query.map fun p =>
    (p.1, ndcgNorm dataset judgments depth p.1 p.2)⟩

/-- Embeds `NDCG::score` (Evaluator impl): actual DCG over the positive gains of the
ranked list divided by the cached normalizer; ad-hoc normalizer for unseen queries;
0.0 when there is no normalizer. -/
noncomputable def NDCG.score (n : NDCG) (qid : String)
    (ranked_list : List RankedInstance) : ℝ :=
  let actual_gain_vector : List ℚ :=
    (ranked_list.map fun ri => ri.gain).filter fun g => decide (0 < g)
  let normalizer : Option ℝ :=
    match alookup n.ideal_gains qid with
    | some v => v
    | none =>
      let gain_vector := sortDesc actual_gain_vector
      if gain_vector = [] then none else some (compute_dcg gain_vector n.depth)
  match normalizer with
  | some ideal_ndcg => compute_dcg actual_gain_vector n.depth / ideal_ndcg
  | none => 0

theorem alookup_map_pair {γ : Type} (f : String → List ℕ → γ)
    (l : List (String × List ℕ)) (qid : String) :
    alookup (l.map fun p => (p.1, f p.1 p.2)) qid = (alookup l qid).map (f qid) := by
  induction l with
  | nil => rfl
  | cons p rest ih =>
    obtain ⟨k, v⟩ := p
    by_cases hk : k = qid
    · subst hk
      simp [alookup]
    · simp [alookup, hk, ih]

/-- C5: a query whose cached ideal gain vector is empty at NDCG construction (no
external judgments for it and no positive-gain dataset rows) scores exactly 0.0 for
every ranked list, and a query never seen at construction whose ranked list has no
positive gains also scores exactly 0.0 — in both cases the absent normalizer is never
divided by. -/
theorem ndcg_no_normalizer_scores_zero (depth : ℕ) (dataset : RankingDataset)
    (judgments : Option QuerySetJudgments) (qid : String)
    (ranked : List RankedInstance) :
    (∀ ids : List ℕ, alookup dataset.data_by_query qid = some ids →
      (judgments.bind fun j => j.get qid) = none →
      ((ids.map fun index => gainAt dataset index).filter
        fun g => decide (0 < g)) = [] →
      (NDCG.new depth dataset judgments).score qid ranked = 0) ∧
    (alookup dataset.data_by_query qid = none →
      ((ranked.map fun ri => ri.gain).filter fun g => decide (0 < g)) = [] →
      (NDCG.new depth dataset judgments).score qid ranked = 0) := by
  have hmap := alookup_map_pair
    (fun q ids => ndcgNorm dataset judgments depth q ids) dataset.data_by_query qid
  constructor
  · intro ids hlook hjudg hpos
    rw [hlook] at hmap
    have hnorm : ndcgNorm dataset judgments depth qid ids = none := by
      simp [ndcgNorm, hjudg, hpos, sortDesc]
    simp [NDCG.score, NDCG.new, hmap, hnorm]
  · intro hlook hpos
    rw [hlook] at hmap
    simp [NDCG.score, NDCG.new, hmap, hpos, sortDesc]

/-- C5 witness: a query with a gain-0 dataset row and no judgments scores 0.0 even on
a ranked list that does contain a positive gain. -/
theorem ndcg_no_normalizer_scores_zero_witness :
    (NDCG.new 3 ⟨[0], [("q", [0])]⟩ none).score "q" [⟨1, 5, 0⟩] = 0 :=
  (ndcg_no_normalizer_scores_zero 3 ⟨[0], [("q", [0])]⟩ none "q" [⟨1, 5, 0⟩]).1
    [0] (by decide) rfl (by decide)

/-! Judgment-file loading (qrel.rs `read_file`). -/

/-- Accumulating split on whitespace — the semantics of Rust `split_whitespace`:
maximal non-whitespace runs, in order, with no empty fields. -/
def splitWsAux : List Char → List Char → List String
  | [], [] => []
  | [], cur => [String.mk cur.reverse]
  | c :: cs, cur =>
    if c.isWhitespace then
      match cur with
      | [] => splitWsAux cs []
      | _ :: _ => String.mk cur.reverse :: splitWsAux cs []
    else splitWsAux cs (c :: cur)

/-- The whitespace-separated fields of one line. -/
def splitWhitespace (line : String) : List String :=
  splitWsAux line.data []

/-- Result of parsing one relevance field, modelling the Rust `str::parse::<f32>`
outcomes that matter here: failure (`none`), a NaN value, or a non-NaN value. -/
inductive ParsedFloat where
  | nan
  | val (q : ℚ)
  deriving DecidableEq

/-- Decimal digit run to a natural number. -/
def digitsVal : List Char → ℕ → ℕ
  | [], acc => acc
  | c :: cs, acc => digitsVal cs (10 * acc + (c.toNat - 48))

/-- A concrete relevance parse for concrete inputs: unsigned decimal integers parse
to their value, the literal "NaN" parses to a NaN, anything else fails — one member
of the family of parse functions `read_file` is parameterized over. -/
def sampleParse (s : String) : Option ParsedFloat :=
  if s = "NaN" then some ParsedFloat.nan
  else if s.data ≠ [] ∧ s.data.all Char.isDigit then
    some (ParsedFloat.val ((digitsVal s.data 0 : ℕ) : ℚ))
  else none

/-- Outcome of `read_file` (qrel.rs): the two-level judgment map, an `Err` with its
message, or a panic (the out-of-bounds `row[_]` indexing on a line with fewer than
four fields). -/
inductive ReadFileResult where
  | ok (out : List (String × List (String × ℚ)))
  | error (msg : String)
  | panicked
  deriving DecidableEq

/-- Overwriting insert for the inner document map (`HashMap::insert`: last wins). -/
def insertOverwrite (m : List (String × ℚ)) (k : String) (v : ℚ) :
    List (String × ℚ) :=
  match m with
  | [] => [(k, v)]
  | (k0, v0) :: rest =>
    if k0 = k then (k, v) :: rest else (k0, v0) :: insertOverwrite rest k v

/-- One `output.entry(qid).or_insert_with(HashMap::new).insert(docid, gain)` step. -/
def updateJudgments (out : List (String × List (String × ℚ))) (qid docid : String)
    (gain : ℚ) : List (String × List (String × ℚ)) :=
  match out with
  | [] => [(qid, [(docid, gain)])]
  | (q0, m0) :: rest =>
    if q0 = qid then (qid, insertOverwrite m0 docid gain) :: rest
    else (q0, m0) :: updateJudgments rest qid docid gain

/-- Embeds the line loop of `read_file` (qrel.rs) over the list of input lines (the
reader) and an abstract relevance parse (Rust `str::parse::<f32>`, external to these
sources): 1-based line counter, whitespace-split fields, panic on a short line, an
`Err` carrying "path:num: ..." on an unparsable or NaN relevance, otherwise
accumulate and continue. -/
def readLines (parse : String → Option ParsedFloat) (path : String) :
    List String → ℕ → List (String × List (String × ℚ)) → ReadFileResult
  | [], _, out => .ok out
  | line :: rest, num, out =>
    let row := splitWhitespace line
    if row.length < 4 then .panicked
    else
      match parse (row.getD 3 "") with
      | none => .error (path ++ ":" ++ toString num ++ ": Invalid relevance judgment "
          ++ row.getD 3 "")
      | some .nan => .error (path ++ ":" ++ toString num ++ ": NaN relevance judgment.")
      | some (.val gain) =>
        readLines parse path rest (num + 1)
          (updateJudgments out (row.getD 0 "") (row.getD 2 "") gain)

/-- Embeds `read_file` (qrel.rs): the loop enters with line number 1 and an empty
accumulator. -/
def read_file (parse : String → Option ParsedFloat) (path : String)
    (lines : List String) : ReadFileResult :=
  readLines parse path lines 1 []

/-- A line the loop passes over without stopping: at least four fields and a
parseable, non-NaN relevance in the fourth. -/
def goodLine (parse : String → Option ParsedFloat) (line : String) : Prop :=
  4 ≤ (splitWhitespace line).length ∧
    ∃ g, parse ((splitWhitespace line).getD 3 "") = some (.val g)

theorem readLines_skip_good (parse : String → Option ParsedFloat) (path : String)
    (rest : List String) :
    ∀ pre : List String, (∀ l ∈ pre, goodLine parse l) →
      ∀ (num : ℕ) (out : List (String × List (String × ℚ))),
        ∃ out2, readLines parse path (pre ++ rest) num out =
          readLines parse path rest (num + pre.length) out2 := by
  intro pre
  induction pre with
  | nil => intro _ num out; exact ⟨out, by simp⟩
  | cons l pre ih =>
    intro hpre num out
    obtain ⟨hlen, g, hg⟩ := hpre l (List.mem_cons_self l pre)
    have hrest : ∀ x ∈ pre, goodLine parse x :=
      fun x hx => hpre x (List.mem_cons_of_mem l hx)
    obtain ⟨out2, hout2⟩ := ih hrest (num + 1)
      (updateJudgments out ((splitWhitespace l).getD 0 "")
        ((splitWhitespace l).getD 2 "") g)
    refine ⟨out2, ?_⟩
    have hnum : num + (l :: pre).length = (num + 1) + pre.length := by
      simp [List.length_cons]
      omega
    rw [List.cons_append]
    simp only [readLines, if_neg (by omega : ¬(splitWhitespace l).length < 4), hg]
    rw [hout2, hnum]

/-- C7 (amended): provided every line before the offending one has at least four
fields and a parseable non-NaN relevance value, a line whose fourth field fails to
parse (or parses to NaN) makes `read_file` return an error for the whole load, whose
message starts with the source path, a colon, and the 1-based number of the
offending line.  (Without that proviso a short earlier line panics first, so no error
value is produced — see the counterexample.) -/
theorem read_file_bad_relevance_errors (parse : String → Option ParsedFloat)
    (path : String) (pre : List String) (line : String) (rest : List String)
    (hpre : ∀ l ∈ pre, goodLine parse l)
    (hlen : 4 ≤ (splitWhitespace line).length)
    (hbad : parse ((splitWhitespace line).getD 3 "") = none ∨
      parse ((splitWhitespace line).getD 3 "") = some .nan) :
    ∃ tail, read_file parse path (pre ++ line :: rest) =
      .error (path ++ ":" ++ toString (pre.length + 1) ++ tail) := by
  obtain ⟨out2, hout2⟩ := readLines_skip_good parse path (line :: rest) pre hpre 1 []
  rw [read_file, hout2, Nat.add_comm 1 pre.length]
  rcases hbad with hbad | hbad
  · refine ⟨": Invalid relevance judgment " ++ (splitWhitespace line).getD 3 "", ?_⟩
    simp only [readLines, if_neg (by omega : ¬(splitWhitespace line).length < 4), hbad]
    rw [String.append_assoc]
  · refine ⟨": NaN relevance judgment.", ?_⟩
    simp only [readLines, if_neg (by omega : ¬(splitWhitespace line).length < 4), hbad]

/-- C7 counterexample: the second line has an unparsable fourth field, but the first
line is whitespace-only, so the whole load panics instead of returning the error
value the claim promises for every such input. -/
theorem read_file_bad_relevance_counterexample :
    sampleParse "x" = none ∧
    read_file sampleParse "f" [" ", "q 0 d x"] = .panicked := by decide

/-- C7 witness: an unparsable relevance on (1-based) line 2 after one good line fails
the load with a message naming the path and line 2. -/
theorem read_file_bad_relevance_errors_witness :
    ∃ tail, read_file sampleParse "f" ["q 0 d 3", "q 0 d x"] =
      .error ("f" ++ ":" ++ toString 2 ++ tail) :=
  read_file_bad_relevance_errors sampleParse "f" ["q 0 d 3"] "q 0 d x" []
    (by
      intro l hl
      rcases List.mem_singleton.mp hl with rfl
      exact ⟨by decide, 3, by decide⟩)
    (by decide) (Or.inl (by decide))

/-- C10 (amended): provided every line before it has at least four fields and a
parseable non-NaN relevance value, a line with fewer than four whitespace-separated
fields (a whitespace-only line included) makes `read_file` panic on the out-of-bounds
row index instead of returning an error value identifying the line.  (An
unparsable-relevance line occurring earlier makes the load error out first — see the
counterexample.) -/
theorem read_file_short_line_panics (parse : String → Option ParsedFloat)
    (path : String) (pre : List String) (line : String) (rest : List String)
    (hpre : ∀ l ∈ pre, goodLine parse l)
    (hshort : (splitWhitespace line).length < 4) :
    read_file parse path (pre ++ line :: rest) = .panicked := by
  obtain ⟨out2, hout2⟩ := readLines_skip_good parse path (line :: rest) pre hpre 1 []
  rw [read_file, hout2]
  simp only [readLines, if_pos hshort]

/-- C10 counterexample: the input contains a line with fewer than four fields (the
whitespace-only line 2), yet `read_file` returns an error (for the unparsable line 1),
not a panic. -/
theorem read_file_short_line_counterexample :
    (splitWhitespace "").length < 4 ∧
    read_file sampleParse "f" ["q 0 d x", ""] =
      .error ("f" ++ ":" ++ toString 1 ++ ": Invalid relevance judgment " ++ "x") := by
  decide

/-- C10 witness: a single whitespace-only line panics the load. -/
theorem read_file_short_line_panics_witness :
    read_file sampleParse "f" [" "] = .panicked :=
  read_file_short_line_panics sampleParse "f" [] " " []
    (by intro l hl; cases hl) (by decide)

end Fastrank
